import Mathlib

/-!
# Verification of the dropbox-upload backup engine

Shallow embedding of `dropbox-upload/upload.py`: the chunked uploader
(`upload_file`), the content hasher (`compute_dropbox_hash`), the
transfer orchestrator (`file_exists` / `process_snapshot` / `backup`)
and the retention enforcer (`limit_snapshots`).

Modelling conventions:
* File contents are `List Nat` (byte strings); creation dates are `Nat`
  (order-isomorphic to parsed timestamps).
* The Dropbox / source-host network calls are recorded as a trace of
  `ApiCall` events returned alongside each function's result.
* Python exceptions become `Except` results.  A local file is
  `Option LocalFile`: `none` means the path does not exist
  (`os.path.getsize` and `open` raise), a present file with
  `readable = false` means `os.path.getsize` succeeds but `open` raises
  (permission denied).
* The SHA-256 primitive is an abstract parameter `H` with 32-byte
  output; `compute_dropbox_hash` builds the two-level
  block-hash-of-hashes exactly as the source does.
* `list.sort` in Python is a stable ascending sort; it is modelled by
  `List.insertionSort`, which is also stable.
-/

namespace DropboxUpload

/-- `CHUNK_SIZE = 4 * 1024 * 1024` from `upload.py`. -/
def CHUNK_SIZE : Nat := 4 * 1024 * 1024

/-- A snapshot as listed by the source host: slug, display name,
creation date. -/
structure Snapshot where
  slug : String
  name : String
  date : Nat
deriving DecidableEq

/-- A local snapshot file: its bytes, and whether `open` succeeds on it. -/
structure LocalFile where
  content : List Nat
  readable : Bool
deriving DecidableEq

/-- The metadata Dropbox reports for an existing remote object. -/
structure Metadata where
  content_hash : List Nat
deriving DecidableEq

/-- Errors raised by local filesystem operations. -/
inductive FsError where
  | fileMissing
  | permissionDenied
deriving DecidableEq

/-- Errors raised by the remote metadata fetch: not-found, but also any
transient network or authorization failure. -/
inductive RemoteErr where
  | notFound
  | network
  | auth
deriving DecidableEq

/-- One outgoing call to the Dropbox client or the source host. -/
inductive ApiCall where
  | getMetadata (path : String)
  | filesUpload (chunk : List Nat) (path : String)
  | sessionStart (chunk : List Nat)
  | sessionAppend (chunk : List Nat) (offset : Nat)
  | sessionFinish (chunk : List Nat) (offset : Nat) (path : String)
  | filesDelete (path : String)
  | removeSnapshot (slug : String)
deriving DecidableEq

/-- Bytes carried by a call (length of the chunk argument). -/
def chunkBytes : ApiCall → Nat
  | .filesUpload c _ => c.length
  | .sessionStart c => c.length
  | .sessionAppend c _ => c.length
  | .sessionFinish c _ _ => c.length
  | _ => 0

/-- Is this call one of the upload family (single-shot or session)? -/
def isUploadCall : ApiCall → Bool
  | .filesUpload _ _ => true
  | .sessionStart _ => true
  | .sessionAppend _ _ => true
  | .sessionFinish _ _ _ => true
  | _ => false

/-- Is this call a session append? -/
def isAppend : ApiCall → Bool
  | .sessionAppend _ _ => true
  | _ => false

/-- `dropbox_path(dropbox_dir, snapshot)`: the destination path
`dropbox_dir / f"{snapshot['slug']}.tar"`. -/
def dropbox_path (dropboxDir : String) (snap : Snapshot) : String :=
  dropboxDir ++ "/" ++ snap.slug ++ ".tar"

/-- The chunked-session loop of `upload_file`, generalized over the
chunk size `csz`.  `pos` is `f.tell()`: bytes already sent.  While
`pos < file_size`: if the remainder fits in one chunk it is sent as the
session-finish call (committing to `dest`), otherwise one chunk is sent
as a session-append at the current cursor offset and the cursor
advances.  Recursion is by fuel; since each iteration advances `pos` by
`csz ≥ 1`, fuel `content.length` (supplied by `uploadLoopC`) is enough
to run the loop to completion. -/
def uploadLoopAux (csz : Nat) (content : List Nat) (dest : String) :
    Nat → Nat → List ApiCall
  | 0, _ => []
  | fuel + 1, pos =>
    if pos < content.length then
      if content.length - pos ≤ csz then
        [ApiCall.sessionFinish ((content.drop pos).take csz) pos dest]
      else
        ApiCall.sessionAppend ((content.drop pos).take csz) pos ::
          uploadLoopAux csz content dest fuel (pos + csz)
    else []

/-- The `while f.tell() < file_size` loop of `upload_file`, entered at
position `pos`. -/
def uploadLoopC (csz : Nat) (content : List Nat) (dest : String) (pos : Nat) :
    List ApiCall :=
  uploadLoopAux csz content dest content.length pos

/-- `upload_file(dbx, file_path, dest_path)` body, generalized over the
chunk size: a single `files_upload` when the file fits in one chunk,
otherwise a session started with the first chunk followed by the loop
(the file position after the start read is `csz`). -/
def uploadFileC (csz : Nat) (content : List Nat) (dest : String) : List ApiCall :=
  if content.length ≤ csz then [ApiCall.filesUpload content dest]
  else ApiCall.sessionStart (content.take csz) :: uploadLoopC csz content dest csz

/-- `upload_file` at the source's `CHUNK_SIZE`. -/
def upload_file (content : List Nat) (dest : String) : List ApiCall :=
  uploadFileC CHUNK_SIZE content dest

/-- The block decomposition performed by `compute_dropbox_hash`'s read
loop: successive `f.read(csz)` chunks until the read comes back empty.
Recursion is by fuel; since each read consumes `csz ≥ 1` bytes, fuel
`l.length` (supplied by `toBlocksC`) is enough. -/
def toBlocksAux (csz : Nat) : Nat → List Nat → List (List Nat)
  | 0, _ => []
  | _, [] => []
  | fuel + 1, l => l.take csz :: toBlocksAux csz fuel (l.drop csz)

/-- The chunks read by `compute_dropbox_hash` from a file with bytes `l`. -/
def toBlocksC (csz : Nat) (l : List Nat) : List (List Nat) :=
  toBlocksAux csz l.length l

/-- `compute_dropbox_hash` generalized over the block hash `H` and the
chunk size: hash each block, concatenate the per-block digests in read
order, and hash the concatenation. -/
def dropboxHashC (H : List Nat → List Nat) (csz : Nat) (content : List Nat) :
    List Nat :=
  H ((toBlocksC csz content).map H).flatten

/-- `compute_dropbox_hash(filename)` on the bytes of the file, at the
source's `CHUNK_SIZE`. -/
def compute_dropbox_hash (H : List Nat → List Nat) (content : List Nat) : List Nat :=
  dropboxHashC H CHUNK_SIZE content

/-- `open(filename, "rb")` + read: errors when the file is missing or
unreadable. -/
def readLocalFile : Option LocalFile → Except FsError (List Nat)
  | none => .error .fileMissing
  | some f => if f.readable then .ok f.content else .error .permissionDenied

/-- `compute_dropbox_hash` including the `open` that may raise. -/
def computeHashFile (H : List Nat → List Nat) (f : Option LocalFile) :
    Except FsError (List Nat) :=
  (readLocalFile f).map (compute_dropbox_hash H)

/-- `file_exists(dbx, file_path, dest_path)`.  `remote` is the outcome
of `dbx.files_get_metadata(dest_path)`.  Any exception from the fetch
is caught and yields `false`; a read error from the local hash
computation propagates; on a hash mismatch the remote file is deleted
and `false` is returned so the caller re-uploads. -/
def file_exists (H : List Nat → List Nat) (remote : Except RemoteErr Metadata)
    (localFile : Option LocalFile) (destPath : String) :
    List ApiCall × Except FsError Bool :=
  match remote with
  | .error _ => ([.getMetadata destPath], .ok false)
  | .ok md =>
    match computeHashFile H localFile with
    | .error e => ([.getMetadata destPath], .error e)
    | .ok h =>
      if h = md.content_hash then ([.getMetadata destPath], .ok true)
      else ([.getMetadata destPath, .filesDelete destPath], .ok false)

/-- `process_snapshot(dropbox_dir, dbx, snapshot)`.  The
`os.path.getsize` call sits before the `try` block, so a missing local
file raises out of the function; inside the `try`, errors from
`file_exists` or `upload_file` are caught and logged.  `uploadFails`
abstracts `upload_file` (with its retry wrapper) ultimately raising; in
that case its partial calls are not recorded. -/
def process_snapshot (H : List Nat → List Nat) (dropboxDir : String)
    (remote : Except RemoteErr Metadata) (localFile : Option LocalFile)
    (snap : Snapshot) (uploadFails : Bool) :
    List ApiCall × Except FsError Unit :=
  match localFile with
  | none => ([], .error FsError.fileMissing)
  | some file =>
    let target := dropbox_path dropboxDir snap
    match file_exists H remote (some file) target with
    | (tr, .error _) => (tr, .ok ())
    | (tr, .ok true) => (tr, .ok ())
    | (tr, .ok false) =>
      if uploadFails then (tr, .ok ())
      else (tr ++ upload_file file.content target, .ok ())

/-- The ascending-by-date comparison used as the sort key
(`key=lambda x: arrow.get(x["date"])`). -/
def snapshotLE (a b : Snapshot) : Prop := a.date ≤ b.date

instance : DecidableRel snapshotLE := fun a b => Nat.decLe a.date b.date

instance : IsTotal Snapshot snapshotLE := ⟨fun a b => Nat.le_total a.date b.date⟩

instance : IsTrans Snapshot snapshotLE := ⟨fun _ _ _ h h' => Nat.le_trans h h'⟩

/-- Python's stable ascending `snapshots.sort(key=...)`. -/
def sortSnapshots (l : List Snapshot) : List Snapshot :=
  List.insertionSort snapshotLE l

/-- `limit_snapshots(dbx, config, snapshots)`.  Returns the caller's
list as it stands after the call (the sort mutates it in place)
together with the trace of deletion calls.  `keep = none` models a
missing `keep` key; `if not keep` also treats `0` as unset.  For each
expired snapshot the source host is asked to remove it by slug and the
remote object is deleted by its derived path. -/
def limit_snapshots (keep : Option Nat) (dropboxDir : String)
    (snapshots : List Snapshot) : List Snapshot × List ApiCall :=
  match keep with
  | none => (snapshots, [])
  | some k =>
    if k = 0 then (snapshots, [])
    else if snapshots.length ≤ k then (snapshots, [])
    else
      let sorted := (sortSnapshots snapshots).reverse
      let expired := sorted.drop k
      (sorted, expired.flatMap (fun s =>
        [ApiCall.removeSnapshot s.slug,
         ApiCall.filesDelete (dropbox_path dropboxDir s)]))

/-- Modelled from the spec: the third-party `retrace.retry(limit=4)`
decorator on `upload_file` is not part of this repository's sources;
per the spec's retry policy it re-runs the whole wrapped call on any
raised error, up to 4 total attempts, re-raising on exhaustion.
`fails i` says whether attempt `i` (0-based) raises; the first argument
is the number of attempts remaining. -/
def retryRun (fails : Nat → Bool) : Nat → Nat → Except Unit Nat
  | 0, _ => .error ()
  | n + 1, i => if fails i then retryRun fails n (i + 1) else .ok i

/-- `upload_file` as called: wrapped in `retrace.retry(limit=4)`.  Each
attempt reopens the file at byte 0, so the successful attempt's call
sequence is the full `upload_file` trace computed from the whole
content — nothing is resumed from a failed attempt. -/
def upload_file_with_retry (fails : Nat → Bool) (content : List Nat)
    (dest : String) : Except Unit (List ApiCall) :=
  (retryRun fails 4 0).map (fun _ => upload_file content dest)

/-- A concrete injective 32-byte block hash (an idealized SHA-256),
used to instantiate hash statements on concrete inputs. -/
def encHash (x : List Nat) : List Nat :=
  Encodable.encode x :: List.replicate 31 0

/-!
## Theorems
-/

/-- C5: for every file whose size is at most one chunk, `upload_file`
issues exactly one single-shot upload call carrying the full file
content, and no session start, append or finish call. -/
theorem small_file_single_upload (content : List Nat) (dest : String)
    (h : content.length ≤ CHUNK_SIZE) :
    upload_file content dest = [ApiCall.filesUpload content dest] := by
  simp [upload_file, uploadFileC, h]

/-- Witness for `small_file_single_upload` on a 3-byte file. -/
theorem small_file_single_upload_witness :
    ([1, 2, 3] : List Nat).length ≤ CHUNK_SIZE ∧
    upload_file [1, 2, 3] "d" = [ApiCall.filesUpload [1, 2, 3] "d"] :=
  ⟨by decide, small_file_single_upload [1, 2, 3] "d" (by decide)⟩

/-- C4 counterexample: `process_snapshot` does raise.  The
`os.path.getsize` call sits before its `try` block, so processing a
snapshot whose local file is missing raises out of `process_snapshot`
(aborting the batch loop in `backup`) instead of being logged and
swallowed. -/
theorem process_raises_on_missing_file :
    (process_snapshot (fun _ => []) "d" (Except.ok ⟨[]⟩) none ⟨"s", "n", 0⟩
        false).2 = Except.error FsError.fileMissing := rfl

/-- C4 amended: whenever the snapshot's local file exists on disk,
`process_snapshot` never raises — every error arising inside its `try`
block (remote check, hash read error, failed upload) is logged and
swallowed; only the pre-`try` size stat on a missing file can raise. -/
theorem process_swallows_errors_when_file_present (H : List Nat → List Nat)
    (dropboxDir : String) (remote : Except RemoteErr Metadata)
    (file : LocalFile) (snap : Snapshot) (uploadFails : Bool) :
    (process_snapshot H dropboxDir remote (some file) snap uploadFails).2 =
      Except.ok () := by
  simp only [process_snapshot]
  rcases hfe : file_exists H remote (some file) (dropbox_path dropboxDir snap)
    with ⟨tr, e | b⟩
  · simp
  · cases b <;> cases uploadFails <;> simp

/-- C9: every exception from the remote metadata fetch — not-found,
network or authorization — makes `file_exists` return `False`, so the
caller treats the remote copy as absent and re-uploads the whole
file. -/
theorem metadata_error_treated_as_absent (H : List Nat → List Nat)
    (dropboxDir : String) (e : RemoteErr) (localFile : Option LocalFile)
    (destPath : String) (file : LocalFile) (snap : Snapshot) :
    file_exists H (Except.error e) localFile destPath =
      ([ApiCall.getMetadata destPath], Except.ok false) ∧
    process_snapshot H dropboxDir (Except.error e) (some file) snap false =
      (ApiCall.getMetadata (dropbox_path dropboxDir snap) ::
        upload_file file.content (dropbox_path dropboxDir snap),
       Except.ok ()) :=
  ⟨rfl, rfl⟩

/-- C8 counterexample: remote object present, local file unreadable.
The read error does propagate out of the hash computation, but
`process_snapshot` catches it in its per-snapshot handler and does NOT
upload: the resulting trace contains no upload call of any kind. -/
theorem unreadable_file_no_upload :
    (file_exists (fun _ => [0]) (Except.ok ⟨[1]⟩) (some ⟨[2, 3], false⟩)
        "d/s.tar").2 = Except.error FsError.permissionDenied ∧
    (process_snapshot (fun _ => [0]) "d" (Except.ok ⟨[1]⟩)
        (some ⟨[2, 3], false⟩) ⟨"s", "n", 0⟩ false).1.filter isUploadCall =
      [] :=
  ⟨rfl, rfl⟩

/-- C8 amended: with a remote object present and the local file
unreadable, the hash computation's read error propagates out of
`file_exists` (the Hash Verifier), and the caller catches it, logs it
and does not upload — the snapshot is skipped, not uploaded.  (When the
local file is missing entirely, the size stat before the `try` raises
instead, and again nothing is uploaded.) -/
theorem hash_error_propagates_no_upload (H : List Nat → List Nat)
    (dropboxDir : String) (md : Metadata) (file : LocalFile)
    (snap : Snapshot) (uploadFails : Bool) (h : file.readable = false) :
    file_exists H (Except.ok md) (some file) (dropbox_path dropboxDir snap) =
      ([ApiCall.getMetadata (dropbox_path dropboxDir snap)],
       Except.error FsError.permissionDenied) ∧
    (process_snapshot H dropboxDir (Except.ok md) (some file) snap
        uploadFails).1.filter isUploadCall = [] ∧
    (process_snapshot H dropboxDir (Except.ok md) (some file) snap
        uploadFails).2 = Except.ok () ∧
    process_snapshot H dropboxDir (Except.ok md) none snap uploadFails =
      ([], Except.error FsError.fileMissing) := by
  have h1 : file_exists H (Except.ok md) (some file)
      (dropbox_path dropboxDir snap) =
      ([ApiCall.getMetadata (dropbox_path dropboxDir snap)],
       Except.error FsError.permissionDenied) := by
    simp [file_exists, computeHashFile, readLocalFile, h, Except.map]
  refine ⟨h1, ?_, ?_, rfl⟩ <;> simp [process_snapshot, h1, isUploadCall]

/-- Witness for `hash_error_propagates_no_upload` on a concrete
unreadable file. -/
theorem hash_error_propagates_no_upload_witness :
    file_exists (fun _ => [0]) (Except.ok ⟨[1]⟩) (some ⟨[2, 3], false⟩)
        (dropbox_path "d" ⟨"s", "n", 0⟩) =
      ([ApiCall.getMetadata (dropbox_path "d" ⟨"s", "n", 0⟩)],
       Except.error FsError.permissionDenied) ∧
    (process_snapshot (fun _ => [0]) "d" (Except.ok ⟨[1]⟩)
        (some ⟨[2, 3], false⟩) ⟨"s", "n", 0⟩ false).1.filter isUploadCall =
      [] ∧
    (process_snapshot (fun _ => [0]) "d" (Except.ok ⟨[1]⟩)
        (some ⟨[2, 3], false⟩) ⟨"s", "n", 0⟩ false).2 = Except.ok () ∧
    process_snapshot (fun _ => [0]) "d" (Except.ok ⟨[1]⟩) none
        ⟨"s", "n", 0⟩ false = ([], Except.error FsError.fileMissing) :=
  hash_error_propagates_no_upload (fun _ => [0]) "d" ⟨[1]⟩ ⟨[2, 3], false⟩
    ⟨"s", "n", 0⟩ false rfl

/-- C10: with a configured nonzero `keep` and more snapshots than
`keep`, `limit_snapshots` sorts the caller's list in place — ascending
by date, then reversed to newest-first — before selecting expired
entries, so after the call the shared list is permanently reordered. -/
theorem limit_sorts_in_place (k : Nat) (dropboxDir : String)
    (l : List Snapshot) (hk : 0 < k) (hl : k < l.length) :
    (limit_snapshots (some k) dropboxDir l).1 = (sortSnapshots l).reverse := by
  simp [limit_snapshots, hk.ne', Nat.not_le.mpr hl]

/-- Witness for `limit_sorts_in_place`: a two-element list handed in
oldest-first comes back newest-first. -/
theorem limit_sorts_in_place_witness :
    (limit_snapshots (some 1) "dir"
        [⟨"a", "A", 1⟩, ⟨"b", "B", 2⟩]).1 =
      (sortSnapshots [⟨"a", "A", 1⟩, ⟨"b", "B", 2⟩]).reverse :=
  limit_sorts_in_place 1 "dir" [⟨"a", "A", 1⟩, ⟨"b", "B", 2⟩]
    (by decide) (by decide)

/-- C7: the whole upload attempt is retried on any raised error, up to
4 total attempts; after 4 failed attempts the error propagates to the
caller; a retry never resumes a prior session — the successful
attempt's call sequence is the complete `upload_file` trace recomputed
from byte 0 of the file. -/
theorem upload_retry_policy (fails : Nat → Bool) (content : List Nat)
    (dest : String) :
    ((∀ i, i < 4 → fails i = true) →
      upload_file_with_retry fails content dest = Except.error ()) ∧
    (∀ k, k < 4 → (∀ i, i < k → fails i = true) → fails k = false →
      upload_file_with_retry fails content dest =
        Except.ok (upload_file content dest)) := by
  constructor
  · intro h
    simp [upload_file_with_retry, retryRun, Except.map, h 0 (by omega),
      h 1 (by omega), h 2 (by omega), h 3 (by omega)]
  · intro k hk hprev hfk
    interval_cases k
    · simp [upload_file_with_retry, retryRun, Except.map, hfk]
    · simp [upload_file_with_retry, retryRun, Except.map, hprev 0 (by omega), hfk]
    · simp [upload_file_with_retry, retryRun, Except.map, hprev 0 (by omega),
        hprev 1 (by omega), hfk]
    · simp [upload_file_with_retry, retryRun, Except.map, hprev 0 (by omega),
        hprev 1 (by omega), hprev 2 (by omega), hfk]

/-- Witness for `upload_retry_policy`: an attempt oracle that fails the
first two attempts and succeeds on the third still returns the full
upload trace. -/
theorem upload_retry_policy_witness :
    upload_file_with_retry (fun i => decide (i < 2)) [1, 2] "d" =
      Except.ok (upload_file [1, 2] "d") :=
  (upload_retry_policy (fun i => decide (i < 2)) [1, 2] "d").2 2 (by decide)
    (fun i hi => by simp only [decide_eq_true_eq]; exact hi) (by decide)

/-- C1: the decision table of `process_snapshot` for a readable local
file.  Remote object present with matching hash: only the metadata
fetch, no delete and no upload.  Present with mismatching hash: exactly
one delete on the destination path, followed by the upload of the local
file.  No remote object: upload without any delete. -/
theorem process_decision_table (H : List Nat → List Nat)
    (dropboxDir : String) (remote : Except RemoteErr Metadata)
    (file : LocalFile) (snap : Snapshot) (hr : file.readable = true) :
    (∀ md, remote = Except.ok md →
      (compute_dropbox_hash H file.content = md.content_hash →
        process_snapshot H dropboxDir remote (some file) snap false =
          ([ApiCall.getMetadata (dropbox_path dropboxDir snap)],
           Except.ok ())) ∧
      (compute_dropbox_hash H file.content ≠ md.content_hash →
        process_snapshot H dropboxDir remote (some file) snap false =
          ([ApiCall.getMetadata (dropbox_path dropboxDir snap),
            ApiCall.filesDelete (dropbox_path dropboxDir snap)] ++
            upload_file file.content (dropbox_path dropboxDir snap),
           Except.ok ()))) ∧
    (∀ e, remote = Except.error e →
      process_snapshot H dropboxDir remote (some file) snap false =
        (ApiCall.getMetadata (dropbox_path dropboxDir snap) ::
          upload_file file.content (dropbox_path dropboxDir snap),
         Except.ok ())) := by
  constructor
  · rintro md rfl
    constructor
    · intro heq
      simp [process_snapshot, file_exists, computeHashFile, readLocalFile,
        Except.map, hr, heq]
    · intro hne
      simp [process_snapshot, file_exists, computeHashFile, readLocalFile,
        Except.map, hr, hne]
  · rintro e rfl
    rfl

/-- Witness for `process_decision_table`: a matching remote hash
produces a trace with no delete and no upload call. -/
theorem process_decision_table_witness :
    process_snapshot (fun _ => []) "d" (Except.ok ⟨[]⟩) (some ⟨[1], true⟩)
        ⟨"s", "n", 0⟩ false =
      ([ApiCall.getMetadata (dropbox_path "d" ⟨"s", "n", 0⟩)],
       Except.ok ()) :=
  ((process_decision_table (fun _ => []) "d" (Except.ok ⟨[]⟩) ⟨[1], true⟩
      ⟨"s", "n", 0⟩ rfl).1 ⟨[]⟩ rfl).1 (by decide)

/-- The chunked-session loop invariant: entered at position
`pos < content.length` with enough fuel, the loop emits zero or more
append calls followed by exactly one finish call, and the bytes it
sends are exactly the bytes from `pos` to the end of the file. -/
theorem uploadLoopAux_spec (csz : Nat) (content : List Nat) (dest : String)
    (hcsz : 0 < csz) :
    ∀ fuel pos, content.length ≤ pos + fuel → pos < content.length →
    ∃ mids lastChunk lastOff,
      uploadLoopAux csz content dest fuel pos =
        mids ++ [ApiCall.sessionFinish lastChunk lastOff dest] ∧
      (∀ e ∈ mids, isAppend e = true) ∧
      ((uploadLoopAux csz content dest fuel pos).map chunkBytes).sum =
        content.length - pos := by
  intro fuel
  induction fuel with
  | zero => intro pos h1 h2; omega
  | succ n ih =>
    intro pos h1 h2
    simp only [uploadLoopAux]
    rw [if_pos h2]
    by_cases hrem : content.length - pos ≤ csz
    · rw [if_pos hrem]
      refine ⟨[], _, _, rfl, by simp, ?_⟩
      simp [chunkBytes]
      omega
    · rw [if_neg hrem]
      obtain ⟨mids, lc, lo, heq, hmids, hsum⟩ :=
        ih (pos + csz) (by omega) (by omega)
      refine ⟨ApiCall.sessionAppend ((content.drop pos).take csz) pos :: mids,
        lc, lo, by rw [heq]; rfl, ?_, ?_⟩
      · intro e he
        rcases List.mem_cons.mp he with rfl | h'
        · rfl
        · exact hmids e h'
      · simp only [List.map_cons, List.sum_cons, hsum, chunkBytes]
        simp only [List.length_take, List.length_drop]
        omega

/-- C2: for every file strictly larger than one chunk, the upload is
one session-start call, then zero or more append calls, then exactly
one finish call — the final call is always the finish — and the bytes
sent across start, appends and finish sum to the file size exactly. -/
theorem chunked_upload_structure (csz : Nat) (content : List Nat)
    (dest : String) (hcsz : 0 < csz) (hbig : csz < content.length) :
    ∃ mids lastChunk lastOff,
      uploadFileC csz content dest =
        ApiCall.sessionStart (content.take csz) ::
          (mids ++ [ApiCall.sessionFinish lastChunk lastOff dest]) ∧
      (∀ e ∈ mids, isAppend e = true) ∧
      ((uploadFileC csz content dest).map chunkBytes).sum =
        content.length := by
  have hnle : ¬ content.length ≤ csz := by omega
  obtain ⟨mids, lc, lo, heq, hm, hsum⟩ :=
    uploadLoopAux_spec csz content dest hcsz content.length csz (by omega) hbig
  refine ⟨mids, lc, lo, ?_, hm, ?_⟩
  · simp only [uploadFileC, if_neg hnle, uploadLoopC, heq]
  · simp only [uploadFileC, if_neg hnle, uploadLoopC, List.map_cons,
      List.sum_cons, hsum, chunkBytes, List.length_take]
    omega

/-- Witness for `chunked_upload_structure`: a 5-byte file with a 2-byte
chunk size (start, one append, one finish; 2+2+1 = 5 bytes). -/
theorem chunked_upload_structure_witness :
    ∃ mids lastChunk lastOff,
      uploadFileC 2 [1, 2, 3, 4, 5] "d" =
        ApiCall.sessionStart (([1, 2, 3, 4, 5] : List Nat).take 2) ::
          (mids ++ [ApiCall.sessionFinish lastChunk lastOff "d"]) ∧
      (∀ e ∈ mids, isAppend e = true) ∧
      ((uploadFileC 2 [1, 2, 3, 4, 5] "d").map chunkBytes).sum =
        ([1, 2, 3, 4, 5] : List Nat).length :=
  chunked_upload_structure 2 [1, 2, 3, 4, 5] "d" (by decide) (by decide)

/-- C3: with `keep = k`, `0 < k < M = length snapshots`, the deletion
trace of `limit_snapshots` consists of exactly one source-host removal
by slug followed by one remote delete by derived path for each expired
snapshot; the expired snapshots number `M - k` and are precisely the
first `M - k` of the ascending-by-date sort (the `M - k` oldest); every
expired snapshot's date is at most every retained snapshot's date, and
the retained newest `k` receive no deletion calls (the trace is built
from expired snapshots only). -/
theorem limit_deletes_oldest (k : Nat) (dropboxDir : String)
    (l : List Snapshot) (hk : 0 < k) (hl : k < l.length) :
    (limit_snapshots (some k) dropboxDir l).2 =
      ((sortSnapshots l).reverse.drop k).flatMap (fun s =>
        [ApiCall.removeSnapshot s.slug,
         ApiCall.filesDelete (dropbox_path dropboxDir s)]) ∧
    ((sortSnapshots l).reverse.drop k).length = l.length - k ∧
    ((sortSnapshots l).reverse.drop k).reverse =
      (sortSnapshots l).take (l.length - k) ∧
    ∀ a ∈ (sortSnapshots l).reverse.drop k,
      ∀ b ∈ (sortSnapshots l).reverse.take k, a.date ≤ b.date := by
  have hlen : (sortSnapshots l).length = l.length := by
    simp [sortSnapshots]
  refine ⟨?_, ?_, ?_, ?_⟩
  · simp [limit_snapshots, hk.ne', Nat.not_le.mpr hl]
  · simp [hlen]
  · have h3 : ((sortSnapshots l).take (l.length - k)).reverse =
        (sortSnapshots l).reverse.drop k := by
      rw [List.reverse_take]
      congr 1
      rw [hlen]
      omega
    rw [← h3, List.reverse_reverse]
  · intro a ha b hb
    have hs : List.Sorted snapshotLE (sortSnapshots l) :=
      List.sorted_insertionSort snapshotLE l
    have hrev : List.Sorted (fun a b => snapshotLE b a)
        (sortSnapshots l).reverse :=
      List.pairwise_reverse.mpr hs
    exact List.Sorted.rel_of_mem_take_of_mem_drop hrev hb ha

/-- Witness for `limit_deletes_oldest`: three snapshots dated 3, 1, 2
with `keep = 2` — only the date-1 snapshot is expired and deleted on
both sides. -/
theorem limit_deletes_oldest_witness :
    (limit_snapshots (some 2) "dir"
        [⟨"a", "A", 3⟩, ⟨"b", "B", 1⟩, ⟨"c", "C", 2⟩]).2 =
      ((sortSnapshots [⟨"a", "A", 3⟩, ⟨"b", "B", 1⟩, ⟨"c", "C", 2⟩]).reverse.drop
          2).flatMap (fun s =>
        [ApiCall.removeSnapshot s.slug,
         ApiCall.filesDelete (dropbox_path "dir" s)]) ∧
    ((sortSnapshots [⟨"a", "A", 3⟩, ⟨"b", "B", 1⟩, ⟨"c", "C", 2⟩]).reverse.drop
        2).length =
      ([⟨"a", "A", 3⟩, ⟨"b", "B", 1⟩, ⟨"c", "C", 2⟩] : List Snapshot).length - 2 ∧
    ((sortSnapshots [⟨"a", "A", 3⟩, ⟨"b", "B", 1⟩, ⟨"c", "C", 2⟩]).reverse.drop
        2).reverse =
      (sortSnapshots [⟨"a", "A", 3⟩, ⟨"b", "B", 1⟩, ⟨"c", "C", 2⟩]).take
        (([⟨"a", "A", 3⟩, ⟨"b", "B", 1⟩, ⟨"c", "C", 2⟩] : List Snapshot).length - 2) ∧
    ∀ a ∈ (sortSnapshots
        [⟨"a", "A", 3⟩, ⟨"b", "B", 1⟩, ⟨"c", "C", 2⟩]).reverse.drop 2,
      ∀ b ∈ (sortSnapshots
        [⟨"a", "A", 3⟩, ⟨"b", "B", 1⟩, ⟨"c", "C", 2⟩]).reverse.take 2,
        a.date ≤ b.date :=
  limit_deletes_oldest 2 "dir" [⟨"a", "A", 3⟩, ⟨"b", "B", 1⟩, ⟨"c", "C", 2⟩]
    (by decide) (by decide)

/-- Concatenating the blocks read by `compute_dropbox_hash` gives back
the file contents. -/
theorem toBlocksAux_flatten (csz : Nat) (hcsz : 0 < csz) :
    ∀ fuel l, l.length ≤ fuel → (toBlocksAux csz fuel l).flatten = l := by
  intro fuel
  induction fuel with
  | zero =>
    intro l h
    have hnil : l = [] := List.length_eq_zero.mp (by omega)
    subst hnil
    rfl
  | succ n ih =>
    intro l h
    cases l with
    | nil => rfl
    | cons a t =>
      have hd : ((a :: t).drop csz).length ≤ n := by
        simp only [List.length_drop, List.length_cons]
        simp only [List.length_cons] at h
        omega
      simp only [toBlocksAux, List.flatten_cons, ih _ hd]
      exact List.take_append_drop csz (a :: t)

/-- Files of equal length decompose into equally many blocks. -/
theorem toBlocksAux_length_eq (csz : Nat) :
    ∀ fuel (l₁ l₂ : List Nat), l₁.length = l₂.length →
      (toBlocksAux csz fuel l₁).length = (toBlocksAux csz fuel l₂).length := by
  intro fuel
  induction fuel with
  | zero => intro l₁ l₂ _; simp [toBlocksAux]
  | succ n ih =>
    intro l₁ l₂ h
    cases l₁ with
    | nil =>
      cases l₂ with
      | nil => rfl
      | cons b t₂ => simp at h
    | cons a t₁ =>
      cases l₂ with
      | nil => simp at h
      | cons b t₂ =>
        simp only [toBlocksAux, List.length_cons]
        rw [ih ((a :: t₁).drop csz) ((b :: t₂).drop csz)
          (by simp only [List.length_drop, List.length_cons] at h ⊢; omega)]

/-- Two lists of equally many blocks of one uniform length with equal
concatenations are equal. -/
theorem flatten_eq_of_uniform (n : Nat) :
    ∀ (L₁ L₂ : List (List Nat)), (∀ x ∈ L₁, x.length = n) →
      (∀ x ∈ L₂, x.length = n) → L₁.length = L₂.length →
      L₁.flatten = L₂.flatten → L₁ = L₂ := by
  intro L₁
  induction L₁ with
  | nil =>
    intro L₂ _ _ hlen _
    cases L₂ with
    | nil => rfl
    | cons b u => simp at hlen
  | cons a t ih =>
    intro L₂ h1 h2 hlen hf
    cases L₂ with
    | nil => simp at hlen
    | cons b u =>
      have ha : a.length = n := h1 a (List.mem_cons_self a t)
      have hb : b.length = n := h2 b (List.mem_cons_self b u)
      simp only [List.flatten_cons] at hf
      have hab : a = b :=
        calc a = (a ++ t.flatten).take a.length := (List.take_left a _).symm
          _ = (b ++ u.flatten).take a.length := by rw [hf]
          _ = (b ++ u.flatten).take b.length := by rw [ha, hb]
          _ = b := List.take_left b _
      have ht : t = u := by
        refine ih u (fun x hx => h1 x (List.mem_cons_of_mem _ hx))
          (fun x hx => h2 x (List.mem_cons_of_mem _ hx))
          (by simpa using hlen) ?_
        have hf2 := hf
        rw [hab] at hf2
        exact List.append_cancel_left hf2
      rw [hab, ht]

/-- An injective fixed-output-length block hash makes the two-level
content hash distinguish any two same-length contents. -/
theorem dropboxHashC_ne (H : List Nat → List Nat) (csz : Nat)
    (hcsz : 0 < csz) (hinj : Function.Injective H)
    (hlen : ∀ x, (H x).length = 32) (c₁ c₂ : List Nat)
    (hlc : c₁.length = c₂.length) (hne : c₁ ≠ c₂) :
    dropboxHashC H csz c₁ ≠ dropboxHashC H csz c₂ := by
  intro heq
  apply hne
  have h1 : ((toBlocksC csz c₁).map H).flatten =
      ((toBlocksC csz c₂).map H).flatten := hinj heq
  have h2 : (toBlocksC csz c₁).map H = (toBlocksC csz c₂).map H := by
    refine flatten_eq_of_uniform 32 _ _ ?_ ?_ ?_ h1
    · intro x hx
      obtain ⟨y, _, rfl⟩ := List.mem_map.mp hx
      exact hlen y
    · intro x hx
      obtain ⟨y, _, rfl⟩ := List.mem_map.mp hx
      exact hlen y
    · simp only [List.length_map, toBlocksC]
      rw [hlc]
      exact toBlocksAux_length_eq csz c₂.length c₁ c₂ hlc
  have h3 : toBlocksC csz c₁ = toBlocksC csz c₂ :=
    List.map_injective_iff.mpr hinj h2
  calc c₁ = (toBlocksC csz c₁).flatten :=
      (toBlocksAux_flatten csz hcsz c₁.length c₁ le_rfl).symm
    _ = (toBlocksC csz c₂).flatten := by rw [h3]
    _ = c₂ := toBlocksAux_flatten csz hcsz c₂.length c₂ le_rfl

/-- C6: `compute_dropbox_hash` is deterministic — the same contents
hash to the identical digest — and, for an injective 32-byte block
hash (the idealization of SHA-256), contents of equal length that
differ anywhere (in particular in a single byte) yield different
digests.  The digest is by construction a function of the content and
the chunk size alone, independent of any read/call pattern. -/
theorem hash_deterministic_and_content_sensitive (H : List Nat → List Nat)
    (hinj : Function.Injective H) (hlen : ∀ x, (H x).length = 32)
    (c₁ c₂ : List Nat) :
    (c₁ = c₂ → compute_dropbox_hash H c₁ = compute_dropbox_hash H c₂) ∧
    (c₁.length = c₂.length → c₁ ≠ c₂ →
      compute_dropbox_hash H c₁ ≠ compute_dropbox_hash H c₂) := by
  constructor
  · intro h; rw [h]
  · intro hlc hne
    exact dropboxHashC_ne H CHUNK_SIZE (by decide) hinj hlen c₁ c₂ hlc hne

/-- Witness for `hash_deterministic_and_content_sensitive`: the
concrete injective block hash `encHash` separates the one-byte files
`[1]` and `[2]`. -/
theorem hash_content_sensitive_witness :
    Function.Injective encHash ∧ (∀ x, (encHash x).length = 32) ∧
    ([1] : List Nat).length = ([2] : List Nat).length ∧
    ([1] : List Nat) ≠ [2] ∧
    compute_dropbox_hash encHash [1] ≠ compute_dropbox_hash encHash [2] := by
  have hinj : Function.Injective encHash := by
    intro a b hab
    simp only [encHash, List.cons.injEq] at hab
    exact Encodable.encode_injective hab.1
  have hlen : ∀ x, (encHash x).length = 32 := by
    intro x
    simp [encHash]
  exact ⟨hinj, hlen, by decide, by decide,
    (hash_deterministic_and_content_sensitive encHash hinj hlen [1] [2]).2
      (by decide) (by decide)⟩

end DropboxUpload
